import Mathlib

/-!
# Verification of the recursum hashing pipeline

Shallow embedding of `src/main.rs` of the `recursum` repository: a
bounded-concurrency file-hashing pipeline.  Rust machine integers are
modelled as `Nat`; Rust `String` and `PathBuf` values are modelled as
lists of UTF-8 code units (`List Nat`); fallible operations (`unwrap`,
`expect`, i.e. Rust panics) are modelled with `Option`, where `none`
means the surrounding execution panics.  The concrete hash algorithm
(MeowHasher) is out of scope per the spec; it is modelled as an abstract
function `digestFn : List Nat → List Nat` from the absorbed byte
stream to the digest bytes, which is exactly the contract of the
RustCrypto `Digest` trait consumed by the code (incremental `update`
calls absorb bytes, `finalize` produces the digest of the concatenation
of everything absorbed).
-/

namespace Recursum

/-- A file path (`PathBuf`), modelled by its platform byte representation. -/
abbrev RPath := List Nat

/-- `BUFFER_PPN` (main.rs:23) is the constant `3.0`. -/
def BUFFER_PPN : Nat := 3

/-- `HASH_BUFFER_SIZE` (main.rs:19): the chunk size fed to the hasher. -/
def HASH_BUFFER_SIZE : Nat := 1024

/-- `queue_length` (main.rs:25-27): `(n_jobs as f64 * BUFFER_PPN).ceil() as usize`.
Since `BUFFER_PPN = 3.0` and the product of a `usize` cast into `f64` with `3.0`
is exact and integral for all realistic `n_jobs`, the ceiling is `3 * n_jobs`. -/
def queue_length (n_jobs : Nat) : Nat := BUFFER_PPN * n_jobs

/-- One nibble to its lowercase hexadecimal ASCII code unit, as produced by
`hex::encode` (main.rs:216). -/
def hexDigitChar (n : Nat) : Nat :=
  if n < 10 then 48 + n else 87 + n

/-- `hex::encode` (main.rs:216): lowercase hexadecimal, two code units per
byte, most significant nibble first, no separators. -/
def hexEncode : List Nat → List Nat
  | [] => []
  | b :: rest => hexDigitChar (b / 16) :: hexDigitChar (b % 16) :: hexEncode rest

/-- Rust `str::is_char_boundary` on a UTF-8 byte list: true at the end of the
string and at any index holding a byte that is not a continuation byte
(continuation bytes are `0x80..=0xBF`). -/
def is_char_boundary (s : List Nat) (i : Nat) : Bool :=
  if i = s.length then true
  else if i < s.length then decide (s.getD i 0 < 128) || decide (192 ≤ s.getD i 0)
  else false

/-- Rust `String::truncate` (used at main.rs:218): no effect when the requested
length is not below the current length; otherwise panics (`none`) unless the
requested length lies on a character boundary, in which case the string is cut
to its first `new_len` bytes. -/
def string_truncate (s : List Nat) (new_len : Nat) : Option (List Nat) :=
  if new_len ≤ s.length then
    if is_char_boundary s new_len then some (s.take new_len) else none
  else some s

/-- The read loop of `hash_reader` (main.rs:229-236): repeatedly read up to
`HASH_BUFFER_SIZE` bytes, feed them to the incremental hasher (whose state is
the list of bytes absorbed so far, per the `Digest` trait contract), and count
the bytes read.  For an in-memory byte source each read returns
`min HASH_BUFFER_SIZE remaining` bytes until the source is exhausted. -/
def hashReaderLoop (absorbed : List Nat) (bytes : List Nat) (size : Nat) :
    List Nat × Nat :=
  if h : bytes = [] then (absorbed, size)
  else
    hashReaderLoop (absorbed ++ bytes.take HASH_BUFFER_SIZE)
      (bytes.drop HASH_BUFFER_SIZE) (size + (bytes.take HASH_BUFFER_SIZE).length)
termination_by bytes.length
decreasing_by
  simp only [List.length_drop]
  have hpos : 0 < bytes.length := List.length_pos.mpr h
  have : 0 < HASH_BUFFER_SIZE := by decide
  omega

/-- `hash_reader` (main.rs:224-238): stream the whole content through the
hasher in chunks, then finalize.  Returns the digest bytes and the byte count. -/
def hash_reader (digestFn : List Nat → List Nat) (content : List Nat) :
    List Nat × Nat :=
  let r := hashReaderLoop [] content 0
  (digestFn r.1, r.2)

/-- `hash_file` (main.rs:213-221): open the file (`unwrap` panics — `none` —
when the path is unreadable), hash its content, hex-encode the digest and
optionally truncate the hex string.  The filesystem is modelled as a partial
map from paths to contents; `none` means the open fails. -/
def hash_file (digestFn : List Nat → List Nat) (fs : RPath → Option (List Nat))
    (fpath : RPath) (truncate : Option Nat) : Option (List Nat × Nat) :=
  match fs fpath with
  | none => none
  | some content =>
    let r := hash_reader digestFn content
    let digest := hexEncode r.1
    match truncate with
    | none => some (digest, r.2)
    | some t => (string_truncate digest t).map (fun d => (d, r.2))

/-- The output line written by `ResultOutput::handle_output` (main.rs:124-128)
and by `handle_single_file` (main.rs:319-323): hash-first when in compatible
mode, path-first otherwise, with the configured separator between the fields. -/
def formatLine (hash_first : Bool) (sep : List Nat) (path : RPath)
    (hash : List Nat) : List Nat :=
  if hash_first then hash ++ sep ++ path else path ++ sep ++ hash

/-- The separator resolution in `main` (main.rs:344-357): a user-supplied
separator of exactly `\t` (backslash, t = `[92, 116]`) becomes a tab `[9]`, of
exactly `\0` (backslash, zero = `[92, 48]`) becomes a null byte `[0]`, and any
other string is used verbatim; with no user separator the default is two
spaces `[32, 32]` in compatible mode and a tab `[9]` otherwise. -/
def resolve_separator (user : Option (List Nat)) (compatible : Bool) :
    List Nat :=
  match user with
  | some s =>
    if s = [92, 116] then [9]
    else if s = [92, 48] then [0]
    else s
  | none => if compatible then [32, 32] else [9]

/-- A spawned hash job in the `fut_queue` window (main.rs:183-186, 199-202):
the admission index (position in the source sequence) and the path.  The
result of a job is a pure function of its path, so the job value is
recomputed at its await point. -/
structure SpawnedJob where
  idx : Nat
  path : RPath
deriving DecidableEq, Repr

/-- The mutable state threaded through `hash_from_stream`: the `ResultOutput`
fields that the claims observe (`lines` models the sequence of `println!`
data lines, the totals model `total_files`/`total_bytes` of main.rs:135-138),
plus instrumentation: `now`/`times` record, for each emission, the wall-clock
time at which the head await of main.rs:197/207 can return (the maximum of the
completion times of the jobs awaited so far), and `maxWindow` records the
largest number of jobs simultaneously resident in `fut_queue` (the
instrumented open-file counter of spec section 8). -/
structure PipeState where
  lines : List (List Nat)
  times : List Nat
  now : Nat
  total_files : Nat
  total_bytes : Nat
  maxWindow : Nat
deriving DecidableEq, Repr

/-- `ResultOutput::handle_output` (main.rs:121-139): print one data line and,
when not quiet, update the running totals (the code increments the totals only
in the non-quiet case, main.rs:135-138). -/
def handle_output (quiet : Bool) (sep : List Nat) (hash_first : Bool)
    (st : PipeState) (path : RPath) (hash : List Nat) (size : Nat) : PipeState :=
  { st with
    lines := st.lines ++ [formatLine hash_first sep path hash],
    total_files := if quiet then st.total_files else st.total_files + 1,
    total_bytes := if quiet then st.total_bytes else st.total_bytes + size }

/-- Awaiting the job at the head of `fut_queue` and emitting its result
(main.rs:197-198 and 207-208).  A job panic (open or read failure) surfaces as
a `JoinError`, and the `.unwrap()` on it panics the awaiting task: `none`.
`ctime` assigns each admission index its completion time; the await returns no
earlier than the job completion, and emissions are sequential, so the
emission clock advances to `max now (ctime idx)`. -/
def awaitEmit (job : RPath → Option (List Nat × Nat)) (ctime : Nat → Nat)
    (quiet : Bool) (sep : List Nat) (hash_first : Bool)
    (st : PipeState) (j : SpawnedJob) : Option PipeState :=
  match job j.path with
  | none => none
  | some hs =>
    let t := max st.now (ctime j.idx)
    some { handle_output quiet sep hash_first st j.path hs.1 hs.2 with
             now := t, times := st.times ++ [t] }

/-- The steady-state loop of `hash_from_stream` (main.rs:194-204): while the
path stream yields another path, pop the OLDEST job off the front of the
window, await and emit it, then append a new job for the freshly taken path to
the back of the window.  Popping an empty window (`pop_front().unwrap()`)
panics: `none`. -/
def steadyLoop (job : RPath → Option (List Nat × Nat)) (ctime : Nat → Nat)
    (quiet : Bool) (sep : List Nat) (hash_first : Bool) :
    List RPath → List SpawnedJob → Nat → PipeState →
    Option (List SpawnedJob × PipeState)
  | [], window, _, st => some (window, st)
  | p :: rest, window, idx, st =>
    match window with
    | [] => none
    | j :: wrest =>
      match awaitEmit job ctime quiet sep hash_first st j with
      | none => none
      | some st1 =>
        let window' := wrest ++ [⟨idx, p⟩]
        steadyLoop job ctime quiet sep hash_first rest window' (idx + 1)
          { st1 with maxWindow := max st1.maxWindow window'.length }

/-- The drain loop of `hash_from_stream` (main.rs:206-209): await and emit the
remaining window jobs strictly in admission order. -/
def drainLoop (job : RPath → Option (List Nat × Nat)) (ctime : Nat → Nat)
    (quiet : Bool) (sep : List Nat) (hash_first : Bool) :
    List SpawnedJob → PipeState → Option PipeState
  | [], st => some st
  | j :: rest, st =>
    match awaitEmit job ctime quiet sep hash_first st j with
    | none => none
    | some st1 => drainLoop job ctime quiet sep hash_first rest st1

/-- The priming loop of `hash_from_stream` (main.rs:180-192): the first
`queue_len` paths of the stream are spawned as jobs with consecutive admission
indices starting at `start`. -/
def spawnJobs (start : Nat) : List RPath → List SpawnedJob
  | [] => []
  | p :: rest => ⟨start, p⟩ :: spawnJobs (start + 1) rest

/-- What a finished run exposes: the data lines in emission order, the
emission-time instrumentation, the final summary printed by
`ResultOutput::finish` (main.rs:141-156) — `none` when quiet, otherwise the
`(total_files, total_bytes)` pair — and the peak window occupancy. -/
structure PipeResult where
  lines : List (List Nat)
  times : List Nat
  summary : Option (Nat × Nat)
  maxWindow : Nat
deriving DecidableEq, Repr

/-- `ResultOutput::finish` (main.rs:141-156): when not quiet, report the run
totals. -/
def finishOutput (quiet : Bool) (st : PipeState) : PipeResult :=
  { lines := st.lines, times := st.times,
    summary := if quiet then none else some (st.total_files, st.total_bytes),
    maxWindow := st.maxWindow }

/-- `hash_from_stream` (main.rs:159-211).  The priming loop (main.rs:180-192)
pulls up to `queue_len = queue_length n_jobs` paths from the stream, spawning
one job each; `is_finished` records whether the stream ran dry during priming.
If it did not, the steady-state loop runs; finally the window is drained and
`finish` reports.  `none` models a panic aborting the run (non-zero process
exit); `some r` models a normal completion (process exit 0). -/
def hash_from_stream (job : RPath → Option (List Nat × Nat)) (ctime : Nat → Nat)
    (paths : List RPath) (n_jobs : Nat) (quiet : Bool) (sep : List Nat)
    (hash_first : Bool) : Option PipeResult :=
  let queue_len := queue_length n_jobs
  let primed := paths.take queue_len
  let window0 := spawnJobs 0 primed
  let is_finished := primed.length < queue_len
  let st0 : PipeState :=
    { lines := [], times := [], now := 0, total_files := 0, total_bytes := 0,
      maxWindow := window0.length }
  let afterSteady :=
    if is_finished then some (window0, st0)
    else steadyLoop job ctime quiet sep hash_first (paths.drop queue_len)
           window0 primed.length st0
  (afterSteady.bind
    (fun ws => drainLoop job ctime quiet sep hash_first ws.1 ws.2)).map
    (finishOutput quiet)

/-- A directory entry seen by the walker loop of `walk_paths` (main.rs:50-59):
a regular file, a non-file entry (skipped by the `is_file` check), or a
traversal error (`entry.unwrap()` panics). -/
inductive WalkEntry where
  | file (p : RPath)
  | dir (p : RPath)
  | err
deriving DecidableEq, Repr

/-- The producer task of `walk_paths` (main.rs:43-63): it sends the path of
every regular-file entry, in traversal order, into the channel.  On an `Err`
entry, `entry.unwrap()` panics; the panic is caught at the `tokio::spawn` task
boundary (the `JoinHandle` is discarded), the task dies, its `sender` is
dropped and the channel closes — so the consumer observes the stream of paths
sent before the error, followed by a normal end of stream. -/
def walk_paths : List WalkEntry → List RPath
  | [] => []
  | .file p :: rest => p :: walk_paths rest
  | .dir _ :: rest => walk_paths rest
  | .err :: _ => []

/-- The producer task of `stdin_paths` (main.rs:29-40): one path per line read
from stdin, in order; `none` models an `Err` from the line reader, on which
`path_result.unwrap()` panics, killing the detached task and closing the
channel, so the consumer observes only the preceding lines. -/
def stdin_paths : List (Option RPath) → List RPath
  | [] => []
  | some p :: rest => p :: stdin_paths rest
  | none :: _ => []

/-- The conduit between a path source and the scheduler, per source variant:
`walk_paths` builds `mpsc::channel(queue_len)` with
`queue_len = queue_length n_jobs` (main.rs:48, main.rs:293-297);
`stdin_paths` builds `mpsc::unbounded_channel()` (main.rs:30); the `Files`
variant passes the fully materialized vector directly to `iter` with no
channel at all (main.rs:288-290). -/
inductive SourceConduit where
  | bounded (capacity : Nat)
  | unbounded
  | materialized
deriving DecidableEq, Repr

/-- The three path-source variants of `InputConfig` (main.rs:270-277). -/
inductive SourceVariant where
  | files
  | directory
  | stdin
deriving DecidableEq, Repr

/-- Which conduit each source variant constructs (see `SourceConduit`). -/
def sourceConduit : SourceVariant → Nat → SourceConduit
  | .directory, n_jobs => .bounded (queue_length n_jobs)
  | .stdin, _ => .unbounded
  | .files, _ => .materialized

/-- `handle_single_file` (main.rs:308-336): hash the file synchronously, print
the single data line, and unless quiet print a summary line reporting 1 file
and the byte count.  `none` models the `unwrap` panic when the file cannot be
read. -/
def handle_single_file (digestFn : List Nat → List Nat)
    (fs : RPath → Option (List Nat)) (p : RPath) (truncate : Option Nat)
    (quiet : Bool) (sep : List Nat) (hash_first : Bool) :
    Option (List Nat × Option (Nat × Nat)) :=
  (hash_file digestFn fs p truncate).map
    (fun hs => (formatLine hash_first sep p hs.1,
                if quiet then none else some (1, hs.2)))

/-- How `main` dispatches the resolved input (main.rs:359-392). -/
inductive Dispatch where
  | stdinSource (n_jobs : Nat)
  | directorySource (n_jobs : Nat) (root : RPath) (walkers : Nat)
  | filesSource (n_jobs : Nat) (paths : List RPath)
  | fastPath (p : RPath)
  | inputPanic
deriving DecidableEq, Repr

/-- The input-resolution logic of `main` (main.rs:361-382): no input panics; a
single input equal to `-` (`[45]`) selects stdin; a single directory selects
the walker; a single regular file selects the synchronous fast path (the
function returns before any runtime, conduit or window is constructed,
main.rs:373-374); any other single input panics; multiple inputs select the
materialized list variant in argument order. -/
def resolveInput (isDir isFile : RPath → Bool) (inputs : List RPath)
    (threads walkers : Nat) : Dispatch :=
  match inputs with
  | [] => .inputPanic
  | [inp] =>
    if inp = [45] then .stdinSource threads
    else if isDir inp then .directorySource threads inp walkers
    else if isFile inp then .fastPath inp
    else .inputPanic
  | _ => .filesSource threads inputs

/-! ## Basic lemmas about the hashing primitives -/

lemma hashReaderLoop_spec (bytes : List Nat) :
    ∀ (absorbed : List Nat) (size : Nat),
      hashReaderLoop absorbed bytes size = (absorbed ++ bytes, size + bytes.length) := by
  have H : ∀ (n : Nat) (bytes : List Nat), bytes.length ≤ n →
      ∀ (absorbed : List Nat) (size : Nat),
        hashReaderLoop absorbed bytes size = (absorbed ++ bytes, size + bytes.length) := by
    intro n
    induction n with
    | zero =>
      intro bytes hb absorbed size
      have hnil : bytes = [] := List.eq_nil_of_length_eq_zero (Nat.le_zero.mp hb)
      subst hnil
      unfold hashReaderLoop
      simp
    | succ n ih =>
      intro bytes hb absorbed size
      by_cases hnil : bytes = []
      · subst hnil
        unfold hashReaderLoop
        simp
      · unfold hashReaderLoop
        rw [dif_neg hnil]
        rw [ih (bytes.drop HASH_BUFFER_SIZE)
              (by
                have hpos : 0 < bytes.length := List.length_pos.mpr hnil
                simp only [List.length_drop, HASH_BUFFER_SIZE]
                omega)]
        simp only [Prod.mk.injEq]
        constructor
        · rw [List.append_assoc, List.take_append_drop]
        · simp only [List.length_take, List.length_drop]
          omega
  intro absorbed size
  exact H bytes.length bytes le_rfl absorbed size

lemma hash_reader_spec (digestFn : List Nat → List Nat) (content : List Nat) :
    hash_reader digestFn content = (digestFn content, content.length) := by
  unfold hash_reader
  rw [hashReaderLoop_spec]
  simp

lemma hash_file_read (digestFn : List Nat → List Nat)
    (fs : RPath → Option (List Nat)) (p : RPath) (c : List Nat)
    (h : fs p = some c) :
    hash_file digestFn fs p none = some (hexEncode (digestFn c), c.length) := by
  unfold hash_file
  rw [h]
  simp [hash_reader_spec]

lemma hash_file_read_trunc (digestFn : List Nat → List Nat)
    (fs : RPath → Option (List Nat)) (p : RPath) (c : List Nat) (t : Nat)
    (h : fs p = some c) :
    hash_file digestFn fs p (some t) =
      (string_truncate (hexEncode (digestFn c)) t).map
        (fun d => (d, c.length)) := by
  unfold hash_file
  rw [h]
  simp [hash_reader_spec]

lemma hash_file_fail (digestFn : List Nat → List Nat)
    (fs : RPath → Option (List Nat)) (p : RPath) (truncate : Option Nat)
    (h : fs p = none) : hash_file digestFn fs p truncate = none := by
  unfold hash_file
  rw [h]

/-! ## Lemmas about hex-encoding and truncation -/

lemma hexDigitChar_range (n : Nat) (h : n < 16) :
    (48 ≤ hexDigitChar n ∧ hexDigitChar n ≤ 57) ∨
    (97 ≤ hexDigitChar n ∧ hexDigitChar n ≤ 102) := by
  unfold hexDigitChar
  split
  · left; omega
  · right; omega

lemma hexEncode_length (d : List Nat) : (hexEncode d).length = 2 * d.length := by
  induction d with
  | nil => simp [hexEncode]
  | cons b rest ih => simp [hexEncode, ih]; omega

lemma hexEncode_mem_range (d : List Nat) (hb : ∀ b ∈ d, b < 256) :
    ∀ ch ∈ hexEncode d, (48 ≤ ch ∧ ch ≤ 57) ∨ (97 ≤ ch ∧ ch ≤ 102) := by
  induction d with
  | nil => simp [hexEncode]
  | cons b rest ih =>
    intro ch hch
    have hb0 : b < 256 := hb b (List.mem_cons_self b rest)
    simp only [hexEncode, List.mem_cons] at hch
    rcases hch with h1 | h2 | h3
    · subst h1; exact hexDigitChar_range _ (by omega)
    · subst h2; exact hexDigitChar_range _ (by omega)
    · exact ih (fun x hx => hb x (List.mem_cons_of_mem _ hx)) ch h3

lemma hexEncode_ascii (d : List Nat) (hb : ∀ b ∈ d, b < 256) :
    ∀ ch ∈ hexEncode d, ch < 128 := by
  intro ch hch
  rcases hexEncode_mem_range d hb ch hch with h | h <;> omega

lemma getD_mem_of_lt : ∀ (s : List Nat) (i : Nat), i < s.length → s.getD i 0 ∈ s := by
  intro s
  induction s with
  | nil => intro i hi; simp at hi
  | cons a rest ih =>
    intro i hi
    cases i with
    | zero => simp
    | succ j =>
      simp only [List.getD_cons_succ]
      exact List.mem_cons_of_mem _ (ih j (by simpa using Nat.lt_of_succ_lt_succ hi))

lemma string_truncate_of_le (s : List Nat) (t : Nat) (h : s.length ≤ t) :
    string_truncate s t = some s := by
  unfold string_truncate
  by_cases h2 : t ≤ s.length
  · have ht : t = s.length := Nat.le_antisymm h2 h
    subst ht
    simp [is_char_boundary]
  · rw [if_neg h2]

lemma string_truncate_ascii (s : List Nat) (hascii : ∀ ch ∈ s, ch < 128)
    (t : Nat) : string_truncate s t = some (s.take t) := by
  by_cases h : s.length ≤ t
  · rw [string_truncate_of_le s t h, List.take_of_length_le h]
  · have hlt : t < s.length := Nat.lt_of_not_le h
    unfold string_truncate
    rw [if_pos (Nat.le_of_lt hlt)]
    have hbd : is_char_boundary s t = true := by
      unfold is_char_boundary
      rw [if_neg (Nat.ne_of_lt hlt), if_pos hlt]
      have hlt128 : s.getD t 0 < 128 := hascii _ (getD_mem_of_lt s t hlt)
      simp only [Bool.or_eq_true, decide_eq_true_eq]
      left
      exact hlt128
    rw [if_pos hbd]

/-! ## Lemmas about the priming loop -/

lemma spawnJobs_map_path {α : Type} (g : RPath → α) :
    ∀ (s : Nat) (l : List RPath),
      (spawnJobs s l).map (fun w => g w.path) = l.map g := by
  intro s l
  induction l generalizing s with
  | nil => simp [spawnJobs]
  | cons p rest ih => simp [spawnJobs, ih]

lemma spawnJobs_length : ∀ (s : Nat) (l : List RPath),
    (spawnJobs s l).length = l.length := by
  intro s l
  induction l generalizing s with
  | nil => simp [spawnJobs]
  | cons p rest ih => simp [spawnJobs, ih]

lemma spawnJobs_path_mem : ∀ (s : Nat) (l : List RPath) (w : SpawnedJob),
    w ∈ spawnJobs s l → w.path ∈ l := by
  intro s l
  induction l generalizing s with
  | nil => intro w hw; simp [spawnJobs] at hw
  | cons p rest ih =>
    intro w hw
    simp only [spawnJobs, List.mem_cons] at hw
    rcases hw with h | h
    · subst h; simp
    · exact List.mem_cons_of_mem _ (ih (s + 1) w h)

/-! ## Lemmas about the scheduler loops -/

lemma awaitEmit_spec (job : RPath → Option (List Nat × Nat)) (ctime : Nat → Nat)
    (quiet : Bool) (sep : List Nat) (hf : Bool) (jv : RPath → List Nat × Nat)
    (st : PipeState) (j : SpawnedJob) (hj : job j.path = some (jv j.path)) :
    ∃ st1, awaitEmit job ctime quiet sep hf st j = some st1 ∧
      st1.lines = st.lines ++ [formatLine hf sep j.path (jv j.path).1] ∧
      st1.total_files = (if quiet then st.total_files else st.total_files + 1) ∧
      st1.total_bytes = (if quiet then st.total_bytes else st.total_bytes + (jv j.path).2) ∧
      st1.maxWindow = st.maxWindow := by
  unfold awaitEmit
  rw [hj]
  refine ⟨_, rfl, ?_, ?_, ?_, ?_⟩ <;> simp [handle_output]

lemma drainLoop_cons (job : RPath → Option (List Nat × Nat)) (ctime : Nat → Nat)
    (quiet : Bool) (sep : List Nat) (hf : Bool) (j : SpawnedJob)
    (rest : List SpawnedJob) (st st1 : PipeState)
    (hs : awaitEmit job ctime quiet sep hf st j = some st1) :
    drainLoop job ctime quiet sep hf (j :: rest) st =
      drainLoop job ctime quiet sep hf rest st1 := by
  simp only [drainLoop, hs]

lemma steadyLoop_cons (job : RPath → Option (List Nat × Nat)) (ctime : Nat → Nat)
    (quiet : Bool) (sep : List Nat) (hf : Bool) (p : RPath) (rest : List RPath)
    (j : SpawnedJob) (wrest : List SpawnedJob) (idx : Nat) (st st1 : PipeState)
    (hs : awaitEmit job ctime quiet sep hf st j = some st1) :
    steadyLoop job ctime quiet sep hf (p :: rest) (j :: wrest) idx st =
      steadyLoop job ctime quiet sep hf rest
        (wrest ++ [(⟨idx, p⟩ : SpawnedJob)]) (idx + 1)
        { st1 with
          maxWindow :=
            max st1.maxWindow (wrest ++ [(⟨idx, p⟩ : SpawnedJob)]).length } := by
  simp only [steadyLoop, hs]

lemma drainLoop_spec (job : RPath → Option (List Nat × Nat)) (ctime : Nat → Nat)
    (quiet : Bool) (sep : List Nat) (hf : Bool) (jv : RPath → List Nat × Nat) :
    ∀ (window : List SpawnedJob) (st : PipeState),
      (∀ w ∈ window, job w.path = some (jv w.path)) →
      ∃ st', drainLoop job ctime quiet sep hf window st = some st' ∧
        st'.lines = st.lines ++
          window.map (fun w => formatLine hf sep w.path (jv w.path).1) ∧
        st'.total_files = st.total_files + (if quiet then 0 else window.length) ∧
        st'.total_bytes = st.total_bytes +
          (if quiet then 0 else (window.map (fun w => (jv w.path).2)).sum) ∧
        st'.maxWindow = st.maxWindow := by
  intro window
  induction window with
  | nil =>
    intro st _
    exact ⟨st, rfl, by simp, by simp, by simp, rfl⟩
  | cons j rest ih =>
    intro st hw
    have hj : job j.path = some (jv j.path) := hw j (List.mem_cons_self j rest)
    obtain ⟨st1, hs, hl1, hf1, hb1, hm1⟩ :=
      awaitEmit_spec job ctime quiet sep hf jv st j hj
    obtain ⟨st', h1, h2, h3, h4, h5⟩ :=
      ih st1 (fun w hw' => hw w (List.mem_cons_of_mem _ hw'))
    rw [drainLoop_cons job ctime quiet sep hf j rest st st1 hs]
    refine ⟨st', h1, ?_, ?_, ?_, ?_⟩
    · rw [h2, hl1]
      simp
    · rw [h3, hf1]
      cases quiet <;> simp <;> omega
    · rw [h4, hb1]
      cases quiet <;> simp <;> omega
    · rw [h5, hm1]

lemma steady_drain_spec (job : RPath → Option (List Nat × Nat)) (ctime : Nat → Nat)
    (quiet : Bool) (sep : List Nat) (hf : Bool) (jv : RPath → List Nat × Nat) :
    ∀ (rest : List RPath) (window : List SpawnedJob) (idx : Nat) (st : PipeState),
      (∀ w ∈ window, job w.path = some (jv w.path)) →
      (∀ p ∈ rest, job p = some (jv p)) →
      (window ≠ [] ∨ rest = []) →
      ∃ st',
        (steadyLoop job ctime quiet sep hf rest window idx st).bind
          (fun ws => drainLoop job ctime quiet sep hf ws.1 ws.2) = some st' ∧
        st'.lines = st.lines ++ (window.map (fun w => w.path) ++ rest).map
          (fun p => formatLine hf sep p (jv p).1) ∧
        st'.total_files = st.total_files +
          (if quiet then 0 else window.length + rest.length) ∧
        st'.total_bytes = st.total_bytes +
          (if quiet then 0 else
            ((window.map (fun w => w.path) ++ rest).map (fun p => (jv p).2)).sum) := by
  intro rest
  induction rest with
  | nil =>
    intro window idx st hwin _ _
    obtain ⟨st', h1, h2, h3, h4, _⟩ :=
      drainLoop_spec job ctime quiet sep hf jv window st hwin
    refine ⟨st', ?_, ?_, ?_, ?_⟩
    · simp only [steadyLoop, Option.some_bind]
      exact h1
    · rw [h2]
      simp [List.map_map, Function.comp_def]
    · rw [h3]
      simp
    · rw [h4]
      simp [List.map_map, Function.comp_def]
  | cons p rest ih =>
    intro window idx st hwin hrest hne
    cases window with
    | nil =>
      rcases hne with h | h
      · exact absurd rfl h
      · exact absurd h (by simp)
    | cons j wrest =>
      have hj : job j.path = some (jv j.path) := hwin j (List.mem_cons_self j wrest)
      obtain ⟨st1, hs, hl1, hf1, hb1, hm1⟩ :=
        awaitEmit_spec job ctime quiet sep hf jv st j hj
      have hwin' : ∀ w ∈ wrest ++ [(⟨idx, p⟩ : SpawnedJob)],
          job w.path = some (jv w.path) := by
        intro w hw
        rcases List.mem_append.mp hw with h | h
        · exact hwin w (List.mem_cons_of_mem _ h)
        · have : w = (⟨idx, p⟩ : SpawnedJob) := by simpa using h
          subst this
          exact hrest p (List.mem_cons_self p rest)
      have hrest' : ∀ q ∈ rest, job q = some (jv q) :=
        fun q hq => hrest q (List.mem_cons_of_mem _ hq)
      obtain ⟨st', h1, h2, h3, h4⟩ :=
        ih (wrest ++ [(⟨idx, p⟩ : SpawnedJob)]) (idx + 1)
          { st1 with
            maxWindow :=
              max st1.maxWindow (wrest ++ [(⟨idx, p⟩ : SpawnedJob)]).length }
          hwin' hrest' (Or.inl (by simp))
      rw [steadyLoop_cons job ctime quiet sep hf p rest j wrest idx st st1 hs]
      refine ⟨st', h1, ?_, ?_, ?_⟩
      · rw [h2]
        simp only [hl1]
        simp
      · rw [h3]
        simp only [hf1]
        cases quiet <;> simp <;> omega
      · rw [h4]
        simp only [hb1]
        cases quiet <;> simp <;> omega

/-- Master specification of `hash_from_stream`: when every streamed path has a
successfully completing job (value `jv p`) and at least one hashing thread is
configured, the run completes normally, emits exactly one data line per path
in source order, and the summary (absent when quiet) reports the file count
and total byte count. -/
lemma hash_from_stream_spec (job : RPath → Option (List Nat × Nat))
    (ctime : Nat → Nat) (jv : RPath → List Nat × Nat) (paths : List RPath)
    (n_jobs : Nat) (quiet : Bool) (sep : List Nat) (hf : Bool)
    (hjob : ∀ p ∈ paths, job p = some (jv p)) (hn : 0 < n_jobs) :
    ∃ r, hash_from_stream job ctime paths n_jobs quiet sep hf = some r ∧
      r.lines = paths.map (fun p => formatLine hf sep p (jv p).1) ∧
      r.summary = (if quiet then none
                   else some (paths.length, (paths.map (fun p => (jv p).2)).sum)) := by
  have hql : 0 < queue_length n_jobs := by
    unfold queue_length BUFFER_PPN
    omega
  by_cases hfin : (paths.take (queue_length n_jobs)).length < queue_length n_jobs
  · -- the source ran dry during priming: is_finished, straight to the drain
    have hlen : paths.length < queue_length n_jobs := by
      rw [List.length_take] at hfin
      omega
    have htake : paths.take (queue_length n_jobs) = paths :=
      List.take_of_length_le (Nat.le_of_lt hlen)
    obtain ⟨st', h1, h2, h3, h4, h5⟩ :=
      drainLoop_spec job ctime quiet sep hf jv (spawnJobs 0 paths)
        { lines := [], times := [], now := 0, total_files := 0, total_bytes := 0,
          maxWindow := (spawnJobs 0 paths).length }
        (fun w hw => hjob w.path (spawnJobs_path_mem 0 paths w hw))
    refine ⟨finishOutput quiet st', ?_, ?_, ?_⟩
    · simp only [hash_from_stream]
      rw [htake, if_pos hlen, Option.some_bind, h1]
      rfl
    · show st'.lines = _
      rw [h2]
      simpa using spawnJobs_map_path (fun p => formatLine hf sep p (jv p).1) 0 paths
    · show (if quiet then none else some (st'.total_files, st'.total_bytes)) = _
      cases quiet with
      | true => simp
      | false =>
        rw [h3, h4]
        have hlenw := spawnJobs_length 0 paths
        have hsum := spawnJobs_map_path (fun p => (jv p).2) 0 paths
        simp [hlenw, hsum]
  · -- steady state: the window was filled completely before any await
    have hlen : queue_length n_jobs ≤ paths.length := by
      rw [List.length_take] at hfin
      omega
    have hplen : (paths.take (queue_length n_jobs)).length = queue_length n_jobs := by
      rw [List.length_take]
      omega
    have hwne : spawnJobs 0 (paths.take (queue_length n_jobs)) ≠ [] := by
      intro hcontra
      have := spawnJobs_length 0 (paths.take (queue_length n_jobs))
      rw [hcontra] at this
      simp only [List.length_nil] at this
      omega
    obtain ⟨st', h1, h2, h3, h4⟩ :=
      steady_drain_spec job ctime quiet sep hf jv
        (paths.drop (queue_length n_jobs))
        (spawnJobs 0 (paths.take (queue_length n_jobs)))
        (paths.take (queue_length n_jobs)).length
        { lines := [], times := [], now := 0, total_files := 0, total_bytes := 0,
          maxWindow := (spawnJobs 0 (paths.take (queue_length n_jobs))).length }
        (fun w hw =>
          hjob w.path (List.take_subset _ _ (spawnJobs_path_mem _ _ w hw)))
        (fun p hp => hjob p (List.drop_subset _ _ hp))
        (Or.inl hwne)
    have hpaths : (spawnJobs 0 (paths.take (queue_length n_jobs))).map
        (fun w => w.path) ++ paths.drop (queue_length n_jobs) = paths := by
      have := spawnJobs_map_path (fun p => p) 0 (paths.take (queue_length n_jobs))
      simp only [List.map_id'] at this
      rw [this]
      exact List.take_append_drop _ _
    refine ⟨finishOutput quiet st', ?_, ?_, ?_⟩
    · simp only [hash_from_stream]
      rw [if_neg hfin, h1]
      rfl
    · show st'.lines = _
      rw [h2, hpaths]
      simp
    · show (if quiet then none else some (st'.total_files, st'.total_bytes)) = _
      cases quiet with
      | true => simp
      | false =>
        simp only [Bool.false_eq_true, if_false]
        rw [h3, h4]
        have hcount : (spawnJobs 0 (paths.take (queue_length n_jobs))).length +
            (paths.drop (queue_length n_jobs)).length = paths.length := by
          rw [spawnJobs_length, List.length_take, List.length_drop]
          omega
        have hsum : ((spawnJobs 0 (paths.take (queue_length n_jobs))).map
            (fun w => w.path) ++ paths.drop (queue_length n_jobs)).map
            (fun p => (jv p).2) = paths.map (fun p => (jv p).2) := by
          rw [hpaths]
        rw [hsum]
        simp [spawnJobs_length, List.length_take, List.length_drop]
        all_goals omega

/-! ## Claim theorems -/

/-- Claim C1: for every finite sequence of paths produced by a path source and
for every assignment of hash-job completion times (`ctime`), a run of the
pipeline in which every job completes emits its results in exactly the order
the paths were produced: the i-th output line is the line for the i-th path. -/
theorem claim_output_order_preserved (j : RPath → List Nat × Nat)
    (ctime : Nat → Nat) (paths : List RPath) (n_jobs : Nat) (quiet : Bool)
    (sep : List Nat) (hf : Bool) (hn : 0 < n_jobs) :
    ∃ r, hash_from_stream (fun p => some (j p)) ctime paths n_jobs quiet sep hf
        = some r ∧
      r.lines.length = paths.length ∧
      r.lines = paths.map (fun p => formatLine hf sep p (j p).1) := by
  obtain ⟨r, h1, h2, _⟩ :=
    hash_from_stream_spec (fun p => some (j p)) ctime j paths n_jobs quiet sep hf
      (fun p _ => rfl) hn
  refine ⟨r, h1, ?_, h2⟩
  rw [h2]
  simp

/-- Witness for C1 at a concrete input: three paths, two hashing threads, and
completion times in reverse admission order (the adversarial interleaving). -/
theorem claim_output_order_preserved_witness :
    (0 < 2) ∧
    ∃ r, hash_from_stream (fun p => some (p, p.length)) (fun i => 100 - i)
        [[97], [98], [99]] 2 false [9] false = some r ∧
      r.lines.length = [[97], [98], [99]].length ∧
      r.lines = [[97], [98], [99]].map
        (fun p => formatLine false [9] p ((p, p.length) : List Nat × Nat).1) :=
  ⟨by decide,
    claim_output_order_preserved (fun p => (p, p.length)) (fun i => 100 - i)
      [[97], [98], [99]] 2 false [9] false (by decide)⟩

/-- Claim C3: for every non-empty finite list of readable input files, the run
completes, the number of output lines equals the number of input files, each
line carries the hex digest of that file's full byte content under the same
(abstract) hash algorithm, and the summary byte count is the sum of the full
file lengths (each file's reported size equals its content length). -/
theorem claim_pipeline_hashes_all_files (digestFn : List Nat → List Nat)
    (fs : RPath → Option (List Nat)) (c : RPath → List Nat) (paths : List RPath)
    (n_jobs : Nat) (quiet : Bool) (sep : List Nat) (hf : Bool) (ctime : Nat → Nat)
    (hn : 0 < n_jobs) (hne : paths ≠ [])
    (hread : ∀ p ∈ paths, fs p = some (c p)) :
    ∃ r, hash_from_stream (fun p => hash_file digestFn fs p none) ctime paths
        n_jobs quiet sep hf = some r ∧
      r.lines.length = paths.length ∧
      r.lines = paths.map
        (fun p => formatLine hf sep p (hexEncode (digestFn (c p)))) ∧
      (quiet = false →
        r.summary = some (paths.length, (paths.map (fun p => (c p).length)).sum)) := by
  have hjob : ∀ p ∈ paths, hash_file digestFn fs p none =
      some (hexEncode (digestFn (c p)), (c p).length) :=
    fun p hp => hash_file_read digestFn fs p (c p) (hread p hp)
  obtain ⟨r, h1, h2, h3⟩ :=
    hash_from_stream_spec _ ctime
      (fun p => (hexEncode (digestFn (c p)), (c p).length)) paths n_jobs quiet
      sep hf hjob hn
  refine ⟨r, h1, ?_, ?_, ?_⟩
  · rw [h2]
    simp
  · rw [h2]
  · intro hq
    rw [h3, hq]
    simp

/-- Witness for C3 at a concrete input: one readable one-byte file. -/
theorem claim_pipeline_hashes_all_files_witness :
    (0 < 1) ∧ ([[97]] : List RPath) ≠ [] ∧
    (∀ p ∈ ([[97]] : List RPath),
      (fun _ => some [104] : RPath → Option (List Nat)) p = some [104]) ∧
    ∃ r, hash_from_stream
        (fun p => hash_file (fun l => l) (fun _ => some [104]) p none)
        (fun _ => 0) [[97]] 1 false [9] false = some r ∧
      r.lines.length = ([[97]] : List RPath).length ∧
      r.lines = ([[97]] : List RPath).map
        (fun p => formatLine false [9] p (hexEncode [104])) ∧
      (false = false →
        r.summary = some (([[97]] : List RPath).length,
          (([[97]] : List RPath).map (fun _ => ([104] : List Nat).length)).sum)) :=
  ⟨by decide, by decide, fun p _ => rfl,
    claim_pipeline_hashes_all_files (fun l => l) (fun _ => some [104])
      (fun _ => [104]) [[97]] 1 false [9] false (fun _ => 0) (by decide)
      (by decide) (fun p _ => rfl)⟩

/-- Claim C9: when the path source yields no paths at all, the pipeline emits
zero output lines and the (non-quiet) summary reports zero files and zero
bytes — for any job function, any completion schedule and any thread count. -/
theorem claim_empty_source_zero_output (job : RPath → Option (List Nat × Nat))
    (ctime : Nat → Nat) (n_jobs : Nat) (sep : List Nat) (hf : Bool) :
    hash_from_stream job ctime [] n_jobs false sep hf =
      some { lines := [], times := [], summary := some (0, 0), maxWindow := 0 } := by
  simp only [hash_from_stream]
  by_cases h : (List.take (queue_length n_jobs) ([] : List RPath)).length <
      queue_length n_jobs
  · rw [if_pos h]
    simp [spawnJobs, drainLoop, finishOutput, List.take_nil]
  · rw [if_neg h]
    simp [spawnJobs, steadyLoop, drainLoop, finishOutput, List.take_nil,
      List.drop_nil]

/-- Claim C2 exhibit (code bug): with hashing concurrency `n_jobs = 1` and
three readable files, the priming loop admits `queue_length 1 = 3` jobs before
any result is consumed, so the window simultaneously holds 3 outstanding jobs,
exceeding the claimed bound `N = 1`. -/
theorem claim_window_bound_exhibit :
    ∃ r, hash_from_stream
        (fun p => hash_file (fun l => l) (fun _ => some []) p none)
        (fun _ => 0) [[97], [98], [99]] 1 true [9] false = some r ∧
      r.maxWindow = 3 ∧ 1 < r.maxWindow := by
  have hjob : ∀ p : RPath,
      hash_file (fun l => l) (fun _ => some ([] : List Nat)) p none =
        some ([], 0) := by
    intro p
    simpa [hexEncode] using
      hash_file_read (fun l => l) (fun _ => some []) p [] rfl
  refine ⟨{ lines := [[97, 9], [98, 9], [99, 9]], times := [0, 0, 0],
            summary := none, maxWindow := 3 }, ?_, rfl, by decide⟩
  simp only [hash_from_stream]
  rw [if_neg (by decide)]
  simp [steadyLoop, drainLoop, awaitEmit, hjob, handle_output, spawnJobs,
    finishOutput, formatLine]

/-- Claim C4 exhibit (code bug): a traversal error in the walker (or a line
read error on stdin) kills only the detached producer task — the panic is
caught at the task boundary and the channel merely closes — so the pipeline
hashes the prefix discovered before the error, prints a summary and completes
normally (exit status 0, modelled by `some`), silently skipping the remaining
files; by contrast an open error inside a hash job does abort the whole run
(modelled by `none`), because the `JoinError` unwrap panics the main task. -/
theorem claim_fatal_error_exhibit :
    walk_paths [.file [97], .err, .file [98]] = [[97]] ∧
    stdin_paths [some [97], none, some [98]] = [[97]] ∧
    (∃ r, hash_from_stream
        (fun p => hash_file (fun l => l)
          (fun q => if q = [99] then none else some []) p none)
        (fun _ => 0) (walk_paths [.file [97], .err, .file [98]]) 2 false [9]
        false = some r ∧
      r.lines.length = 1 ∧ r.summary = some (1, 0)) ∧
    hash_from_stream
        (fun p => hash_file (fun l => l)
          (fun q => if q = [99] then none else some []) p none)
        (fun _ => 0) [[97], [99]] 2 false [9] false = none := by
  have h97 : hash_file (fun l => l)
      (fun q => if q = [99] then none else some ([] : List Nat)) [97] none =
        some ([], 0) := by
    simpa [hexEncode] using
      hash_file_read (fun l => l)
        (fun q => if q = [99] then none else some []) [97] [] (by decide)
  have h99 : hash_file (fun l => l)
      (fun q => if q = [99] then none else some ([] : List Nat)) [99] none =
        none :=
    hash_file_fail _ _ _ _ (by decide)
  refine ⟨rfl, rfl,
    ⟨{ lines := [[97, 9]], times := [0], summary := some (1, 0),
       maxWindow := 1 }, ?_, rfl, rfl⟩, ?_⟩
  · simp only [walk_paths, hash_from_stream]
    rw [if_pos (by decide)]
    simp [drainLoop, awaitEmit, h97, handle_output, spawnJobs, finishOutput,
      formatLine]
  · simp only [hash_from_stream]
    rw [if_pos (by decide)]
    simp [drainLoop, awaitEmit, h97, h99, handle_output, spawnJobs,
      finishOutput]

/-- Claim C5 counterexample: it is not the case that every path source variant
feeds the scheduler through a bounded conduit of capacity
`queue_length n_jobs`; concretely, the stdin (line reader) variant at
`n_jobs = 4` uses an unbounded conduit. -/
theorem claim_conduit_not_uniformly_bounded :
    sourceConduit .stdin 4 ≠ .bounded (queue_length 4) := by
  decide

/-- Claim C5 amended: only the walker (directory) variant feeds the scheduler
through a bounded conduit, of capacity `queue_length N = 3 * N` (the ceiling
of `N` times the buffer factor 3); the line-reader variant uses an unbounded
conduit and the list variant is fully materialized with no conduit. -/
theorem claim_conduit_capacity_amended (n_jobs : Nat) :
    sourceConduit .directory n_jobs = .bounded (queue_length n_jobs) ∧
    queue_length n_jobs = 3 * n_jobs ∧
    sourceConduit .stdin n_jobs = .unbounded ∧
    sourceConduit .files n_jobs = .materialized :=
  ⟨rfl, rfl, rfl, rfl⟩

/-- Claim C6: the digest text is the lowercase hexadecimal encoding of the
digest bytes (two code units per byte, every code unit a lowercase hex
character), truncation to `k ≤ len` is exactly the `k`-code-unit prefix of the
hex string, and truncating the already-truncated string to the same `k`
leaves it unchanged. -/
theorem claim_hex_truncation_prefix (d : List Nat) (hb : ∀ b ∈ d, b < 256)
    (k : Nat) (hk : k ≤ (hexEncode d).length) :
    (hexEncode d).length = 2 * d.length ∧
    (∀ ch ∈ hexEncode d, (48 ≤ ch ∧ ch ≤ 57) ∨ (97 ≤ ch ∧ ch ≤ 102)) ∧
    string_truncate (hexEncode d) k = some ((hexEncode d).take k) ∧
    string_truncate ((hexEncode d).take k) k = some ((hexEncode d).take k) := by
  refine ⟨hexEncode_length d, hexEncode_mem_range d hb,
    string_truncate_ascii _ (hexEncode_ascii d hb) k, ?_⟩
  have hlen : ((hexEncode d).take k).length ≤ k := by
    simp [List.length_take]
  rw [string_truncate_of_le _ _ hlen]

/-- Witness for C6 at a concrete digest: byte `0xab` hex-encodes to `ab` and
truncates to its one-character prefix idempotently. -/
theorem claim_hex_truncation_prefix_witness :
    (∀ b ∈ ([171] : List Nat), b < 256) ∧ 1 ≤ (hexEncode [171]).length ∧
    ((hexEncode [171]).length = 2 * ([171] : List Nat).length ∧
     (∀ ch ∈ hexEncode [171], (48 ≤ ch ∧ ch ≤ 57) ∨ (97 ≤ ch ∧ ch ≤ 102)) ∧
     string_truncate (hexEncode [171]) 1 = some ((hexEncode [171]).take 1) ∧
     string_truncate ((hexEncode [171]).take 1) 1 =
       some ((hexEncode [171]).take 1)) :=
  ⟨by decide, by decide,
    claim_hex_truncation_prefix [171] (by decide) 1 (by decide)⟩

/-- Claim C7: each output line is `path ++ sep ++ digest` by default and
`digest ++ sep ++ path` in compatible (hash-first) mode; `handle_output`
appends exactly that line; the default separator is a tab, or two spaces when
compatible mode drives the default; a user separator of exactly backslash-t is
interpreted as a tab, exactly backslash-0 as a null byte, and any other
separator string is used verbatim. -/
theorem claim_output_line_format (sep p h s : List Nat)
    (compatible quiet hfirst : Bool) (st : PipeState) (size : Nat) :
    formatLine false sep p h = p ++ sep ++ h ∧
    formatLine true sep p h = h ++ sep ++ p ∧
    (handle_output quiet sep hfirst st p h size).lines =
      st.lines ++ [formatLine hfirst sep p h] ∧
    resolve_separator none false = [9] ∧
    resolve_separator none true = [32, 32] ∧
    resolve_separator (some [92, 116]) compatible = [9] ∧
    resolve_separator (some [92, 48]) compatible = [0] ∧
    (s ≠ [92, 116] → s ≠ [92, 48] →
      resolve_separator (some s) compatible = s) := by
  refine ⟨rfl, rfl, rfl, rfl, rfl, by simp [resolve_separator], ?_, ?_⟩
  · simp [resolve_separator]
  · intro h1 h2
    simp [resolve_separator, h1, h2]

/-- Witness for C7 at a concrete separator: a comma is neither of the two
escape sequences and is used verbatim. -/
theorem claim_output_line_format_witness :
    ([44] : List Nat) ≠ [92, 116] ∧ ([44] : List Nat) ≠ [92, 48] ∧
    resolve_separator (some [44]) false = [44] :=
  ⟨by decide, by decide,
    (claim_output_line_format [9] [] [] [44] false false false
        { lines := [], times := [], now := 0, total_files := 0,
          total_bytes := 0, maxWindow := 0 } 0).2.2.2.2.2.2.2
      (by decide) (by decide)⟩

/-- Claim C8: a single input that is a regular file is dispatched to the
synchronous fast path (no pipeline, conduit or window is constructed);
`handle_single_file` produces exactly one data line plus a summary present
exactly when not quiet; and the digest on that line is identical to the digest
the concurrent pipeline emits for the same file with the same truncation
setting. -/
theorem claim_single_file_fast_path (isDir isFile : RPath → Bool)
    (digestFn : List Nat → List Nat) (fs : RPath → Option (List Nat))
    (p : RPath) (d : List Nat) (sz : Nat) (trunc : Option Nat)
    (threads walkers n_jobs : Nat) (quiet : Bool) (sep : List Nat) (hf : Bool)
    (ctime : Nat → Nat) (hdash : p ≠ [45]) (hdir : isDir p = false)
    (hfile : isFile p = true)
    (hjob : hash_file digestFn fs p trunc = some (d, sz)) (hn : 0 < n_jobs) :
    resolveInput isDir isFile [p] threads walkers = .fastPath p ∧
    handle_single_file digestFn fs p trunc quiet sep hf =
      some (formatLine hf sep p d, if quiet then none else some (1, sz)) ∧
    ∃ r, hash_from_stream (fun q => hash_file digestFn fs q trunc) ctime [p]
        n_jobs quiet sep hf = some r ∧
      r.lines = [formatLine hf sep p d] := by
  refine ⟨?_, ?_, ?_⟩
  · simp [resolveInput, hdash, hdir, hfile]
  · simp [handle_single_file, hjob]
  · obtain ⟨r, h1, h2, _⟩ :=
      hash_from_stream_spec (fun q => hash_file digestFn fs q trunc) ctime
        (fun _ => (d, sz)) [p] n_jobs quiet sep hf
        (by
          intro q hq
          have hq' : q = p := by simpa using hq
          subst hq'
          simpa using hjob) hn
    refine ⟨r, h1, ?_⟩
    rw [h2]
    simp

/-- Witness for C8 at a concrete input: a one-byte file `0x68` whose digest
(under the identity digest function) hex-encodes to `68`. -/
theorem claim_single_file_fast_path_witness :
    ([97] : RPath) ≠ [45] ∧
    (fun _ : RPath => false) [97] = false ∧
    (fun _ : RPath => true) [97] = true ∧
    hash_file (fun l => l) (fun _ => some [104]) [97] none =
      some ([54, 56], 1) ∧ (0 < 1) ∧
    (resolveInput (fun _ => false) (fun _ => true) [[97]] 1 1 =
      .fastPath [97] ∧
    handle_single_file (fun l => l) (fun _ => some [104]) [97] none false [9]
        false =
      some (formatLine false [9] [97] [54, 56],
            if false then none else some (1, 1)) ∧
    ∃ r, hash_from_stream
        (fun q => hash_file (fun l => l) (fun _ => some [104]) q none)
        (fun _ => 0) [[97]] 1 false [9] false = some r ∧
      r.lines = [formatLine false [9] [97] [54, 56]]) := by
  have hjob : hash_file (fun l => l) (fun _ => some [104]) [97] none =
      some ([54, 56], 1) := by
    simpa [hexEncode, hexDigitChar] using
      hash_file_read (fun l => l) (fun _ => some [104]) [97] [104] rfl
  exact ⟨by decide, rfl, rfl, hjob, by decide,
    claim_single_file_fast_path (fun _ => false) (fun _ => true) (fun l => l)
      (fun _ => some [104]) [97] [54, 56] 1 none 1 1 1 false [9] false
      (fun _ => 0) (by decide) rfl rfl hjob (by decide)⟩

/-- Claim C10: for every readable file and every requested maximum digest
length `t` at least the full hex length, truncation is a no-op — `hash_file`
with `some t` equals `hash_file` with no truncation — and `String::truncate`
on the hex digest succeeds (never panics) for every requested length. -/
theorem claim_truncate_length_noop (digestFn : List Nat → List Nat)
    (fs : RPath → Option (List Nat)) (p : RPath) (c : List Nat)
    (hread : fs p = some c) (hb : ∀ b ∈ digestFn c, b < 256) (t : Nat)
    (ht : (hexEncode (digestFn c)).length ≤ t) :
    hash_file digestFn fs p (some t) = hash_file digestFn fs p none ∧
    (∀ u : Nat, (string_truncate (hexEncode (digestFn c)) u).isSome = true) := by
  constructor
  · rw [hash_file_read_trunc digestFn fs p c t hread,
        hash_file_read digestFn fs p c hread,
        string_truncate_of_le _ _ ht]
    rfl
  · intro u
    rw [string_truncate_ascii _ (hexEncode_ascii _ hb) u]
    rfl

/-- Witness for C10 at a concrete input: the empty file under a digest
function returning the single byte 0, with requested length 2 = full hex
length. -/
theorem claim_truncate_length_noop_witness :
    (fun _ : RPath => some ([] : List Nat)) [] = some [] ∧
    (∀ b ∈ ((fun _ : List Nat => [0]) ([] : List Nat) : List Nat), b < 256) ∧
    (hexEncode ((fun _ : List Nat => [0]) ([] : List Nat))).length ≤ 2 ∧
    (hash_file (fun _ => [0]) (fun _ => some []) [] (some 2) =
      hash_file (fun _ => [0]) (fun _ => some []) [] none ∧
    (∀ u : Nat,
      (string_truncate (hexEncode ((fun _ : List Nat => [0])
        ([] : List Nat))) u).isSome = true)) :=
  ⟨rfl, by decide, by decide,
    claim_truncate_length_noop (fun _ => [0]) (fun _ => some []) [] [] rfl
      (by decide) 2 (by decide)⟩

end Recursum
